import Mathlib

/-!
Verification development for the account-registry and streaming-chat logic of
the virtual-assistant web application.

The definitions below are shallow embeddings of the TypeScript source:

* `src/src/components/AccountSwitcher.tsx` (v2 variant) and
  `src/unnamed/part_000`: `loadAccountsFromStorage`, `saveAccountsToStorage`,
  `upsertAccount`, `handleSwitchAccount`, `handleLogout`.
* `src/src/components/ChatInterface.tsx`: `streamChat` and its SSE decoding
  loop.
* `src/supabase/functions/chat/index.ts`: `validateMessages` and the request
  handler.

External collaborators (the auth platform, the database, `JSON.parse`,
`fetch`) are modelled as explicit parameters: each remote call's outcome is an
input of the embedded function, and the calls themselves are recorded in an
action trace.  JavaScript strings are modelled as `String` (identifiers) or
`List Char` (streamed text); JavaScript truthiness of an optional string is
`none ↦ false`, `some "" ↦ false`, otherwise `true`.
-/

namespace Aid

/-- JS truthiness of an optional string (`undefined`/`null`/`""` are falsy). -/
def truthy : Option String → Bool
  | none => false
  | some s => s ≠ ""

/-! ## Account registry data model (AccountSwitcher.tsx, v2 shape) -/

/-- `StoredTokens` from AccountSwitcher.tsx: the credential pair. -/
structure StoredTokens where
  accessToken : String
  refreshToken : String
  expiresAt : Option Nat
  deriving Repr, DecidableEq

/-- `StoredAccount` (v2 shape) from AccountSwitcher.tsx. -/
structure StoredAccount where
  userId : String
  email : String
  username : String
  lastUsed : String
  tokens : Option StoredTokens
  deriving Repr, DecidableEq

/-- `saveAccountsToStorage`: persists `accounts.slice(0, 5)` under the v2 key.
The returned list is the value written to storage. -/
def saveAccountsToStorage (accounts : List StoredAccount) : List StoredAccount :=
  accounts.take 5

/-- `upsertAccount`'s state-updater body: remove any entry with the same
email, put the new record first, keep the 5 most recent.  (In the source the
updater starts from the in-memory list when non-empty and from storage
otherwise; in this model both coincide with the registry state `prev`.) -/
def upsertAccount (prev : List StoredAccount) (account : StoredAccount) :
    List StoredAccount :=
  let filtered := prev.filter (fun a => a.email != account.email)
  (account :: filtered).take 5

/-- The emails of a registry state are pairwise distinct. -/
def emailsNodup (l : List StoredAccount) : Prop :=
  (l.map (·.email)).Nodup

instance (l : List StoredAccount) : Decidable (emailsNodup l) := by
  unfold emailsNodup; infer_instance

/-! ## Legacy-store migration (`loadAccountsFromStorage`) -/

/-- A record of the legacy-shaped store, after `JSON.parse`.  Each field is
`none` when absent (or not a string); a `null`/non-object array element is
modelled as a record whose `email` is `none` (both are dropped by the same
filter). -/
structure LegacyAccount where
  email : Option String
  username : Option String
  lastUsed : Option String
  userId : Option String
  id : Option String
  deriving Repr, DecidableEq

/-- JS `email.split("@")[0]`: the characters preceding the first `'@'` (the
whole string when it has none). -/
def localPart (email : String) : String :=
  String.mk (email.data.takeWhile (fun c => c ≠ '@'))

/-- The per-record upgrade in `loadAccountsFromStorage`:
`userId := a.userId || a.id || a.email`, `username := a.username ||
a.email.split("@")[0]`, `lastUsed := a.lastUsed || now`, no tokens. -/
def migrateLegacy (now : String) (a : LegacyAccount) : StoredAccount :=
  { userId :=
      if truthy a.userId then a.userId.getD ""
      else if truthy a.id then a.id.getD ""
      else a.email.getD ""
    email := a.email.getD ""
    username :=
      if truthy a.username then a.username.getD ""
      else localPart (a.email.getD "")
    lastUsed := if truthy a.lastUsed then a.lastUsed.getD "" else now
    tokens := none }

/-- `loadAccountsFromStorage`.  `v2` and `legacy` are the parsed contents of
the two storage keys; a missing key, a parse failure or a non-array value are
modelled as `[]` (exactly what `safeJsonParse` + the `Array.isArray` guards
yield).  Returns the account list together with the value written back to the
v2 key (`none` when nothing is written). -/
def loadAccountsFromStorage (v2 : List StoredAccount)
    (legacy : List LegacyAccount) (now : String) :
    List StoredAccount × Option (List StoredAccount) :=
  if v2.length > 0 then (v2, none)
  else if legacy.length = 0 then ([], none)
  else
    let migrated := (legacy.filter (fun a => a.email.isSome)).map (migrateLegacy now)
    (migrated.take 5, some (migrated.take 5))

/-! ## Switch protocol (`handleSwitchAccount`, part_000 lines 199-279)

The auth collaborator is modelled by `SwitchEnv`: the outcome of each remote
call (`setSession`, `refreshSession`, `getSession`, the profile lookup) is an
input.  A call that errors, or resolves to a `null` session, yields `none`.
The observable effects are recorded as a trace of `SwAct` actions. -/

/-- A session as returned by the auth collaborator (`session.user.id`,
`session.user.email`, and the token triple). -/
structure Session where
  userId : String
  email : String
  accessToken : String
  refreshToken : String
  expiresAt : Option Nat
  deriving Repr, DecidableEq

/-- Outcomes of the auth/database collaborator calls made during a switch. -/
structure SwitchEnv where
  /-- result of `setSession({access_token, refresh_token})`; `none` = error
  or null session. -/
  setSessionResult : Option Session
  /-- result of `refreshSession({refresh_token})`; `none` = error or null
  session. -/
  refreshResult : Option Session
  /-- result of `getSession()` inside `saveCurrentSession`. -/
  currentSession : Option Session
  /-- `profiles.username` for a given user id (`none`/`some ""` are falsy). -/
  profileUsernameOf : String → Option String

/-- Toast categories shown during a switch. -/
inductive SwToast where
  | signInRequired
  | switching
  | switchError
  | switched
  deriving Repr, DecidableEq

/-- Observable actions of `handleSwitchAccount`. -/
inductive SwAct where
  /-- `localStorage.setItem("switch_to_email", email)`. -/
  | storeHint (email : String)
  /-- `navigate("/auth?mode=switch&email=...")`: the interactive sign-in page. -/
  | navAuth (email : String)
  /-- `window.location.href = "/"`: full reload into the ACTIVE state. -/
  | navHome
  | setSessionCall
  | refreshSessionCall
  | upsert (a : StoredAccount)
  | toastShown (k : SwToast)
  deriving Repr, DecidableEq

/-- `fetchUsername`: `profile?.username || (email ? email.split("@")[0] :
"User")`. -/
def fetchUsername (env : SwitchEnv) (userId email : String) : String :=
  if truthy (env.profileUsernameOf userId) then (env.profileUsernameOf userId).getD ""
  else if email ≠ "" then localPart email
  else "User"

/-- `saveCurrentSession`: upsert the currently signed-in account (with its
fresh tokens) before switching away; a no-op when there is no session or the
session lacks a user id or email. -/
def saveCurrentSession (env : SwitchEnv) (now : String) : List SwAct :=
  match env.currentSession with
  | none => []
  | some s =>
      if s.userId ≠ "" ∧ s.email ≠ "" then
        [SwAct.upsert
          { userId := s.userId, email := s.email
            username := fetchUsername env s.userId s.email
            lastUsed := now
            tokens := some ⟨s.accessToken, s.refreshToken, s.expiresAt⟩ }]
      else []

/-- `handleSwitchAccount` (part_000 lines 199-279), as the trace of its
observable actions.  Follows the source exactly: early return on a falsy or
current email; no refresh token → pending hint + interactive sign-in; else
save the current session, try `setSession` when an access token is stored,
fall back to `refreshSession`, and either upsert + full reload (ACTIVE) or
pending hint + interactive sign-in with an error toast. -/
def handleSwitchAccount (currentEmail : String) (account : StoredAccount)
    (env : SwitchEnv) (now : String) : List SwAct :=
  if account.email = "" then []
  else if account.email = currentEmail then []
  else
    let refreshToken := match account.tokens with
      | some t => t.refreshToken
      | none => ""
    let accessToken := match account.tokens with
      | some t => t.accessToken
      | none => ""
    if refreshToken = "" then
      [SwAct.storeHint account.email, SwAct.toastShown .signInRequired,
       SwAct.navAuth account.email]
    else
      let saveActs := saveCurrentSession env now
      let callsAndSession : List SwAct × Option Session :=
        if accessToken ≠ "" then
          match env.setSessionResult with
          | some s => ([SwAct.setSessionCall], some s)
          | none => ([SwAct.setSessionCall, SwAct.refreshSessionCall], env.refreshResult)
        else
          ([SwAct.refreshSessionCall], env.refreshResult)
      let tail : List SwAct :=
        match callsAndSession.2 with
        | none =>
            [SwAct.storeHint account.email, SwAct.toastShown .switchError,
             SwAct.navAuth account.email]
        | some s =>
            if s.userId = "" ∨ s.email = "" then
              [SwAct.storeHint account.email, SwAct.toastShown .switchError,
               SwAct.navAuth account.email]
            else
              [SwAct.upsert
                { userId := s.userId, email := s.email
                  username := fetchUsername env s.userId s.email
                  lastUsed := now
                  tokens := some ⟨s.accessToken, s.refreshToken, s.expiresAt⟩ },
               SwAct.toastShown .switched, SwAct.navHome]
      saveActs ++ [SwAct.toastShown .switching] ++ callsAndSession.1 ++ tail

/-! ## `handleLogout` (AccountSwitcher.tsx v2 variant, lines 370-386) -/

/-- The state-updater body of `handleLogout`: clear the credential pair (and
refresh `lastUsed`) of every entry matching the current email, leave the other
entries untouched; the result is passed to `saveAccountsToStorage`. -/
def handleLogoutAccounts (accounts : List StoredAccount)
    (currentEmail now : String) : List StoredAccount :=
  accounts.map (fun a =>
    if a.email = currentEmail then { a with tokens := none, lastUsed := now }
    else a)

/-! ## SSE stream decoder (ChatInterface.tsx, `streamChat` lines 179-221)

The byte stream is modelled, after `TextDecoder`, as a list of text chunks
(`List Char` each).  `JSON.parse` plus the `parsed.choices?.[0]?.delta?.
content` extraction is the collaborator parameter `parse : List Char → Option
(List Char)`; `none` models both a parse exception (caught and skipped) and a
missing/non-truthy content field (also skipped). -/

/-- `if (line.endsWith("\r")) line = line.slice(0, -1)`. -/
def dropTrailingCR (l : List Char) : List Char :=
  if l.getLast? = some '\r' then l.dropLast else l

/-- JS `String.prototype.trim` on a character list. -/
def trimChars (l : List Char) : List Char :=
  ((l.dropWhile Char.isWhitespace).reverse.dropWhile Char.isWhitespace).reverse

/-- What the loop body does with one complete line. -/
inductive LineStep where
  | skip
  | done
  | delta (d : List Char)
  deriving Repr, DecidableEq

/-- `"data: "` as characters. -/
def dataMarker : List Char := "data: ".data

/-- `"[DONE]"` as characters. -/
def doneMarker : List Char := "[DONE]".data

/-- One iteration of the line loop: strip a trailing CR, skip comments and
blank lines, skip lines without the `data: ` marker, break on the `[DONE]`
sentinel, otherwise parse and keep a truthy delta. -/
def lineStep (parse : List Char → Option (List Char)) (line : List Char) :
    LineStep :=
  let l := dropTrailingCR line
  if l.head? = some ':' ∨ trimChars l = [] then .skip
  else if ¬ (dataMarker.isPrefixOf l) then .skip
  else
    let jsonStr := trimChars (l.drop 6)
    if jsonStr = doneMarker then .done
    else match parse jsonStr with
      | some d => if d = [] then .skip else .delta d
      | none => .skip

/-- The repeated `textBuffer.indexOf("\n")` + slicing of the inner `while`
loop, taken all at once: the complete (newline-terminated) lines of the
buffer, in order, and the trailing partial line that stays buffered. -/
def splitLines : List Char → List (List Char) × List Char
  | [] => ([], [])
  | c :: rest =>
      let (ls, p) := splitLines rest
      if c = '\n' then ([] :: ls, p)
      else match ls with
        | [] => ([], c :: p)
        | l :: ls₂ => ((c :: l) :: ls₂, p)

/-- The body of the inner `while` loop, iterated over the complete lines:
consume lines in order, accumulating the content deltas; the `[DONE]`
sentinel `break`s, leaving the still-unconsumed lines (returned first) in the
buffer. -/
def runLines (parse : List Char → Option (List Char)) :
    List (List Char) → List (List Char) →
    List (List Char) × List (List Char) × Bool
  | [], ds => ([], ds, false)
  | line :: ls, ds =>
      match lineStep parse line with
      | .skip => runLines parse ls ds
      | .done => (ls, ds, true)
      | .delta d => runLines parse ls (ds ++ [d])

/-- Re-assemble the text that is still in `textBuffer` after the loop: the
unconsumed complete lines (each with its newline) followed by the partial
line. -/
def joinLines (ls : List (List Char)) (p : List Char) : List Char :=
  (ls.map (fun l => l ++ ['\n'])).flatten ++ p

/-- The inner `while` loop over the text buffer: consume complete lines,
returning the remaining buffer and the accumulated content deltas (in
order). -/
def processBuf (parse : List Char → Option (List Char)) (buf : List Char)
    (ds : List (List Char)) : List Char × List (List Char) :=
  let (lns, p) := splitLines buf
  let (rem, ds₂, _) := runLines parse lns ds
  (joinLines rem p, ds₂)

/-- One outer-loop iteration: append the decoded chunk to the buffer and run
the line loop. -/
def feedChunk (parse : List Char → Option (List Char))
    (st : List Char × List (List Char)) (chunk : List Char) :
    List Char × List (List Char) :=
  processBuf parse (st.1 ++ chunk) st.2

/-- The full reader loop of `streamChat` over a chunked stream: the sequence
of content deltas appended to `assistantContent`, in order. -/
def decodeDeltas (parse : List Char → Option (List Char))
    (chunks : List (List Char)) : List (List Char) :=
  (chunks.foldl (feedChunk parse) ([], [])).2

/-! ### Event-stream scenarios

An abstract description of one line of the server's event stream, used to
state the chunking-independence property. -/

/-- One line of the event stream (without its terminating newline). -/
inductive SSELine where
  /-- a comment line `":..."`. -/
  | comment (s : List Char)
  /-- a blank line. -/
  | blank
  /-- an event line `"data: " ++ json`. -/
  | event (json : List Char)
  /-- the sentinel line `"data: [DONE]"`. -/
  | done
  deriving Repr, DecidableEq

/-- The text of a line. -/
def renderLine : SSELine → List Char
  | .comment s => ':' :: s
  | .blank => []
  | .event j => dataMarker ++ j
  | .done => dataMarker ++ doneMarker

/-- A line followed by its newline. -/
def renderLn (l : SSELine) : List Char :=
  renderLine l ++ ['\n']

/-- The whole stream text of a list of lines. -/
def renderAll (ls : List SSELine) : List Char :=
  (ls.map renderLn).flatten

/-- The string the decoder hands to `JSON.parse` for an event line with
payload `j`: trailing CR stripped, then trimmed. -/
def jsonOf (j : List Char) : List Char :=
  trimChars (dropTrailingCR j)

/-- Well-formedness of a stream line: line texts hold no newline, and an
event payload must not trim to the sentinel.  `done` is excluded (the
scenarios place the sentinel explicitly at the end). -/
def wfLine : SSELine → Prop
  | .comment s => '\n' ∉ s
  | .blank => True
  | .event j => '\n' ∉ j ∧ jsonOf j ≠ doneMarker
  | .done => False

instance : DecidablePred wfLine := by
  intro l; cases l <;> unfold wfLine <;> infer_instance

/-- The delta a line contributes: the parsed truthy content of an event line,
nothing otherwise. -/
def deltaOfLine (parse : List Char → Option (List Char)) : SSELine → Option (List Char)
  | .event j =>
      match parse (jsonOf j) with
      | some d => if d = [] then none else some d
      | none => none
  | _ => none

/-- The deltas of the stream's valid event lines, in stream order. -/
def expectedDeltas (parse : List Char → Option (List Char))
    (ls : List SSELine) : List (List Char) :=
  ls.filterMap (deltaOfLine parse)

/-! ## `streamChat` (ChatInterface.tsx lines 127-236) -/

/-- A chat message (`role`, `content`). -/
inductive Role where
  | user
  | assistant
  deriving Repr, DecidableEq

/-- In-memory chat message. -/
structure Msg where
  role : Role
  content : List Char
  deriving Repr, DecidableEq

/-- Toasts shown by `streamChat`. -/
inductive ChatToast where
  | notAuth
  | rateLimit
  | paymentRequired
  | genericError
  deriving Repr, DecidableEq

/-- Observable actions of `streamChat`, in order.  `saveMessageCall` is the
invocation of the persistence helper `saveMessage` (itself a sequence of
database calls); its third component is the `conversationIdOverride`
argument as passed at the call site. -/
inductive ChatAct where
  | setLoading (b : Bool)
  | saveMessageCall (role : Role) (content : List Char) (convOverride : Option String)
  | fetchChat
  | toastShown (k : ChatToast)
  deriving Repr, DecidableEq

/-- Actions that reach the network (the persistence collaborator or the
completion endpoint). -/
def ChatAct.isNetworkCall : ChatAct → Bool
  | .saveMessageCall _ _ _ => true
  | .fetchChat => true
  | _ => false

/-- Collaborator outcomes for one `streamChat` run. -/
structure ChatEnv where
  /-- conversation id returned by `saveMessage("user", ...)`; `none` = null. -/
  saveUserResult : Option String
  /-- `session?.access_token` from `getSession()`. -/
  accessToken : Option String
  /-- HTTP status of the completion endpoint response. -/
  status : Nat
  /-- whether `response.body` is non-null. -/
  hasBody : Bool
  /-- the decoded text chunks delivered by the reader. -/
  chunks : List (List Char)
  /-- `JSON.parse` + delta-content extraction (see `decodeDeltas`). -/
  parse : List Char → Option (List Char)
  /-- `conversationIdRef.current` as read at the assistant-save line (the ref
  is mutated when the user changes conversation mid-stream). -/
  refAtEnd : Option String

/-- `response.ok`. -/
def responseOk (status : Nat) : Prop :=
  200 ≤ status ∧ status < 300

instance (s : Nat) : Decidable (responseOk s) := by
  unfold responseOk; infer_instance

/-- Result of a `streamChat` run. -/
structure ChatResult where
  trace : List ChatAct
  messages : List Msg
  loading : Bool
  deriving Repr, DecidableEq

/-- One `setMessages` functional update of the streaming loop: extend the
accumulated content and either replace the last message in place (when it is
already the assistant turn) or append a new assistant turn. -/
def applyDelta (msgs : List Msg) (acc d : List Char) : List Msg × List Char :=
  let acc₂ := acc ++ d
  match msgs.getLast? with
  | some m =>
      if m.role = .assistant then (msgs.dropLast ++ [⟨.assistant, acc₂⟩], acc₂)
      else (msgs ++ [⟨.assistant, acc₂⟩], acc₂)
  | none => (msgs ++ [⟨.assistant, acc₂⟩], acc₂)

/-- All streaming `setMessages` updates, folded over the delta sequence. -/
def applyDeltas (msgs : List Msg) (ds : List (List Char)) : List Msg :=
  (ds.foldl (fun p d => applyDelta p.1 p.2 d) (msgs, [])).1

/-- JS truthiness of an optional `List Char` value. -/
def truthyL : Option (List Char) → Bool
  | none => false
  | some l => l ≠ []

/-- `streamChat(userMessage)`, with component state `messages` (in-memory
message list) and `currentConversationId` (the render-closure value captured
at call time).  Mirrors the source order: optimistic append + `setIsLoading
(true)`, `saveMessage("user", ...)`, session check, fetch, status checks,
stream decoding, conditional assistant persistence, `finally`
`setIsLoading(false)`. -/
def streamChat (messages : List Msg) (userMessage : List Char)
    (currentConversationId : Option String) (env : ChatEnv) : ChatResult :=
  let newMessages := messages ++ [⟨Role.user, userMessage⟩]
  let pre : List ChatAct :=
    [.setLoading true, .saveMessageCall .user userMessage none]
  let convId := env.saveUserResult
  if ¬ truthy env.accessToken then
    { trace := pre ++ [.toastShown .notAuth, .setLoading false]
      messages := newMessages, loading := false }
  else
    let pre₂ := pre ++ [ChatAct.fetchChat]
    if ¬ responseOk env.status then
      if env.status = 429 then
        { trace := pre₂ ++ [.toastShown .rateLimit, .setLoading false]
          messages := newMessages, loading := false }
      else if env.status = 402 then
        { trace := pre₂ ++ [.toastShown .paymentRequired, .setLoading false]
          messages := newMessages, loading := false }
      else
        { trace := pre₂ ++ [.toastShown .genericError, .setLoading false]
          messages := newMessages, loading := false }
    else if ¬ env.hasBody then
      { trace := pre₂ ++ [.toastShown .genericError, .setLoading false]
        messages := newMessages, loading := false }
    else
      let ds := decodeDeltas env.parse env.chunks
      let assistantContent := ds.flatten
      let finalMessages := applyDeltas newMessages ds
      let saveActs : List ChatAct :=
        if assistantContent ≠ [] ∧
            (truthy convId ∨ truthy currentConversationId ∨ truthy env.refAtEnd) then
          [.saveMessageCall .assistant assistantContent
            (convId.orElse (fun _ => currentConversationId.orElse (fun _ => env.refAtEnd)))]
        else []
      { trace := pre₂ ++ saveActs ++ [.setLoading false]
        messages := finalMessages, loading := false }

/-! ## Chat serverless endpoint (supabase/functions/chat/index.ts) -/

/-- A JSON field value as inspected by `validateMessages`: a string, absent,
or present with a non-string value. -/
inductive JField where
  | jstr (s : String)
  | jmissing
  | jother
  deriving Repr, DecidableEq

/-- One element of the `messages` array that is an object. -/
structure JMsgObj where
  role : JField
  content : JField
  deriving Repr, DecidableEq

/-- The request body's `messages` field: an array (whose elements are objects
or not — `none` models `null`/non-object elements) or any non-array value
(including an absent field). -/
inductive JMessages where
  | arr (l : List (Option JMsgObj))
  | notArray
  deriving Repr, DecidableEq

/-- `validateMessages` (chat/index.ts lines 14-44). -/
def validateMessages : JMessages → Bool
  | .notArray => false
  | .arr l =>
      if l.length = 0 then false
      else if l.length > 100 then false
      else l.all (fun el =>
        match el with
        | none => false
        | some m =>
            match m.role, m.content with
            | .jstr r, .jstr c =>
                (r = "user" ∨ r = "assistant" ∨ r = "system") ∧ c.length ≤ 10000
            | _, _ => false)

/-- The spec's wording of a valid `messages` value: a non-empty array of at
most 100 objects, each with a string role in {user, assistant, system} and a
string content of at most 10000 characters. -/
def specValidMessages (m : JMessages) : Prop :=
  ∃ l, m = .arr l ∧ l ≠ [] ∧ l.length ≤ 100 ∧
    ∀ el ∈ l, ∃ o r c, el = some o ∧ o.role = .jstr r ∧ o.content = .jstr c ∧
      (r = "user" ∨ r = "assistant" ∨ r = "system") ∧ c.length ≤ 10000

/-- Server-side effects of the chat handler. -/
inductive ServerAct where
  /-- the POST to the AI completion gateway. -/
  | completionRequest
  /-- the `tasks` row insert after streaming. -/
  | taskInsert
  deriving Repr, DecidableEq

/-- Collaborator outcomes for the chat handler. -/
structure ChatServeEnv where
  /-- `LOVABLE_API_KEY` configured. -/
  apiKeyPresent : Bool
  /-- HTTP status returned by the completion gateway. -/
  gatewayStatus : Nat
  /-- whether the streamed response carries a `[TASK_CREATED]` block (the
  post-stream extraction, abstracted; not needed by the claims). -/
  streamYieldsTask : Bool

/-- The chat handler after JWT verification (chat/index.ts lines 96-249):
status code of the response and the list of server-side effects.  `body` is
the parsed `messages` field; `none` models a JSON parse failure of the whole
body. -/
def chatServe (authed : Bool) (body : Option JMessages) (env : ChatServeEnv) :
    Nat × List ServerAct :=
  if ¬ authed then (401, [])
  else
    match body with
    | none => (400, [])
    | some messages =>
        if ¬ validateMessages messages then (400, [])
        else if ¬ env.apiKeyPresent then (500, [])
        else if ¬ responseOk env.gatewayStatus then
          if env.gatewayStatus = 429 then (429, [ServerAct.completionRequest])
          else if env.gatewayStatus = 402 then (402, [ServerAct.completionRequest])
          else (500, [ServerAct.completionRequest])
        else
          (200, ServerAct.completionRequest ::
            (if env.streamYieldsTask then [ServerAct.taskInsert] else []))

/-! ## Theorems -/

theorem upsertAccount_take5_eq (s : List StoredAccount) (a : StoredAccount) :
    saveAccountsToStorage (upsertAccount s a) = upsertAccount s a := by
  simp [saveAccountsToStorage, upsertAccount, List.take_take]

theorem emailsNodup_upsertAccount {s : List StoredAccount} (h : emailsNodup s)
    (a : StoredAccount) : emailsNodup (upsertAccount s a) := by
  unfold emailsNodup upsertAccount at *
  apply List.Nodup.sublist ((List.take_sublist _ _).map _)
  simp only [List.map_cons, List.nodup_cons]
  constructor
  · intro hmem
    obtain ⟨b, hb, hbe⟩ := List.mem_map.mp hmem
    have hne := List.of_mem_filter hb
    simp only [bne_iff_ne] at hne
    exact hne hbe
  · exact List.Nodup.sublist ((List.filter_sublist _).map _) h

theorem emailsNodup_foldl (calls : List StoredAccount) :
    ∀ s, emailsNodup s → emailsNodup (calls.foldl upsertAccount s) := by
  induction calls with
  | nil => intro s h; simpa using h
  | cons c cs ih => intro s h; exact ih _ (emailsNodup_upsertAccount h c)

/-- C2 (amended): starting from any stored state whose entries have pairwise
distinct emails, after each call of any sequence of `upsertAccount` calls the
persisted list has at most 5 entries, pairwise distinct emails, and the most
recently upserted account as its first element (and re-saving it is the
identity). -/
theorem upsertAccount_seq_invariants (s₀ : List StoredAccount)
    (h₀ : emailsNodup s₀) (calls : List StoredAccount) (i : Nat)
    (hi : i < calls.length) :
    ((calls.take (i+1)).foldl upsertAccount s₀).length ≤ 5 ∧
    emailsNodup ((calls.take (i+1)).foldl upsertAccount s₀) ∧
    ((calls.take (i+1)).foldl upsertAccount s₀).head? = some calls[i] ∧
    saveAccountsToStorage ((calls.take (i+1)).foldl upsertAccount s₀) =
      (calls.take (i+1)).foldl upsertAccount s₀ := by
  have htake : calls.take (i+1) = calls.take i ++ [calls[i]] := by
    rw [List.take_succ, List.getElem?_eq_getElem hi]; rfl
  rw [htake, List.foldl_append]
  have hs : emailsNodup ((calls.take i).foldl upsertAccount s₀) :=
    emailsNodup_foldl _ _ h₀
  simp only [List.foldl_cons, List.foldl_nil]
  refine ⟨?_, emailsNodup_upsertAccount hs _, ?_, upsertAccount_take5_eq _ _⟩
  · exact List.length_take_le _ _
  · unfold upsertAccount
    rw [List.take_succ_cons]
    rfl

/-- Witness for `upsertAccount_seq_invariants` at a concrete input. -/
theorem upsertAccount_seq_invariants_witness :
    emailsNodup ([] : List StoredAccount) ∧ 0 < 1 ∧
    ((([⟨"u1", "a@x.com", "a", "t1", none⟩] : List StoredAccount).take 1).foldl
        upsertAccount []).head? = some ⟨"u1", "a@x.com", "a", "t1", none⟩ :=
  ⟨by decide, by decide,
   (upsertAccount_seq_invariants [] (by decide)
      [⟨"u1", "a@x.com", "a", "t1", none⟩] 0 (by decide)).2.2.1⟩

/-- C2 counterexample: from a stored state that already contains two entries
with the same email (the v2 store is read back unvalidated, so such states
are storable), a single upsert persists a list that still contains two
entries with the same email. -/
theorem upsertAccount_dup_counterexample :
    ¬ emailsNodup (upsertAccount
      [⟨"u1", "b@x.com", "b", "t1", none⟩, ⟨"u2", "b@x.com", "b2", "t2", none⟩]
      ⟨"u3", "a@x.com", "a", "t3", none⟩) := by
  decide

/-- C9: `handleLogout` clears exactly the current identity's credential pair:
the list keeps its length, the matching entries keep their `userId`, `email`
and `username` but lose their tokens, every other entry is unchanged, and the
result (for a registry within the 5-entry cap) is persisted as is. -/
theorem handleLogout_clears_only_current_tokens (accounts : List StoredAccount)
    (currentEmail now : String) (hlen : accounts.length ≤ 5) :
    (handleLogoutAccounts accounts currentEmail now).length = accounts.length ∧
    (∀ i, ∀ hi : i < accounts.length,
      (accounts[i].email = currentEmail →
        (handleLogoutAccounts accounts currentEmail now)[i]? =
          some { accounts[i] with tokens := none, lastUsed := now }) ∧
      (accounts[i].email ≠ currentEmail →
        (handleLogoutAccounts accounts currentEmail now)[i]? =
          some accounts[i])) ∧
    saveAccountsToStorage (handleLogoutAccounts accounts currentEmail now) =
      handleLogoutAccounts accounts currentEmail now := by
  refine ⟨by simp [handleLogoutAccounts], ?_, ?_⟩
  · intro i hi
    constructor
    · intro hcur
      simp [handleLogoutAccounts, List.getElem?_map, List.getElem?_eq_getElem hi,
        hcur]
    · intro hcur
      simp [handleLogoutAccounts, List.getElem?_map, List.getElem?_eq_getElem hi,
        hcur]
  · have : (handleLogoutAccounts accounts currentEmail now).length ≤ 5 := by
      simpa [handleLogoutAccounts] using hlen
    simp [saveAccountsToStorage, List.take_of_length_le this]

/-- Witness for `handleLogout_clears_only_current_tokens`. -/
theorem handleLogout_clears_only_current_tokens_witness :
    ([⟨"u1", "a@x.com", "a", "t1", some ⟨"at", "rt", none⟩⟩,
      ⟨"u2", "b@x.com", "b", "t2", some ⟨"at2", "rt2", none⟩⟩] :
        List StoredAccount).length ≤ 5 ∧
    (handleLogoutAccounts
      [⟨"u1", "a@x.com", "a", "t1", some ⟨"at", "rt", none⟩⟩,
       ⟨"u2", "b@x.com", "b", "t2", some ⟨"at2", "rt2", none⟩⟩]
      "a@x.com" "t9").length = 2 :=
  ⟨by decide,
   (handleLogout_clears_only_current_tokens
      [⟨"u1", "a@x.com", "a", "t1", some ⟨"at", "rt", none⟩⟩,
       ⟨"u2", "b@x.com", "b", "t2", some ⟨"at2", "rt2", none⟩⟩]
      "a@x.com" "t9" (by decide)).1⟩

theorem validateMessages_iff_spec (m : JMessages) :
    validateMessages m = true ↔ specValidMessages m := by
  cases m with
  | notArray => simp [validateMessages, specValidMessages]
  | arr l =>
      simp only [validateMessages, specValidMessages]
      constructor
      · intro h
        by_cases h0 : l.length = 0
        · simp [h0] at h
        · rw [if_neg h0] at h
          by_cases h100 : l.length > 100
          · simp [h100] at h
          · rw [if_neg h100] at h
            refine ⟨l, rfl, by simpa using h0, by omega, ?_⟩
            intro el hel
            have := List.all_eq_true.mp h el hel
            cases el with
            | none => simp at this
            | some o =>
                obtain ⟨orole, ocontent⟩ := o
                cases orole with
                | jstr r =>
                    cases ocontent with
                    | jstr c =>
                        have h₂ : (r = "user" ∨ r = "assistant" ∨ r = "system") ∧
                            c.length ≤ 10000 := by simpa using this
                        exact ⟨⟨.jstr r, .jstr c⟩, r, c, rfl, rfl, rfl, h₂.1, h₂.2⟩
                    | jmissing => simp at this
                    | jother => simp at this
                | jmissing => cases ocontent <;> simp at this
                | jother => cases ocontent <;> simp at this
      · rintro ⟨l₂, heq, hne, hlen, hall⟩
        cases heq
        have h0 : ¬ l.length = 0 := by
          simpa using (fun h => hne (List.length_eq_zero.mp h))
        have h100 : ¬ l.length > 100 := by omega
        rw [if_neg h0, if_neg h100]
        apply List.all_eq_true.mpr
        intro el hel
        obtain ⟨o, r, c, helo, hro, hco, hrin, hcl⟩ := hall el hel
        subst helo
        obtain ⟨orole, ocontent⟩ := o
        dsimp only at hro hco
        subst hro
        subst hco
        simpa using ⟨hrin, hcl⟩

/-- C10: for any authenticated request whose `messages` field is not a
non-empty array of at most 100 objects with a string role in
{user, assistant, system} and a string content of at most 10000 characters,
the chat endpoint responds 400 and performs no server-side effect: the
completion gateway is never contacted and no task row is inserted. -/
theorem chatServe_rejects_invalid_messages (m : JMessages) (env : ChatServeEnv)
    (h : ¬ specValidMessages m) : chatServe true (some m) env = (400, []) := by
  have hv : validateMessages m = false := by
    cases hb : validateMessages m
    · rfl
    · exact absurd ((validateMessages_iff_spec m).mp hb) h
  simp [chatServe, hv]

/-- Witness for `chatServe_rejects_invalid_messages`. -/
theorem chatServe_rejects_invalid_messages_witness :
    chatServe true (some (JMessages.arr [])) ⟨true, 200, false⟩ = (400, []) :=
  chatServe_rejects_invalid_messages (JMessages.arr []) ⟨true, 200, false⟩
    (by rintro ⟨l, heq, hne, -, -⟩; cases heq; exact hne rfl)

/-- C8 (amended): loading a non-empty legacy store of at most 5 valid entries
(string email) while the current-shape store is empty migrates every legacy
entry in order (none dropped), strips every credential pair, writes the
migrated list back to the current-shape store, and gives a non-empty username
to every entry that carried a truthy legacy username or an email with a
non-empty local part. -/
theorem loadAccountsFromStorage_migrates_legacy (legacy : List LegacyAccount)
    (now : String) (hne : legacy ≠ []) (hlen : legacy.length ≤ 5)
    (hvalid : ∀ a ∈ legacy, a.email.isSome) :
    (loadAccountsFromStorage [] legacy now).1 = legacy.map (migrateLegacy now) ∧
    (loadAccountsFromStorage [] legacy now).1.length = legacy.length ∧
    (loadAccountsFromStorage [] legacy now).2 =
      some (legacy.map (migrateLegacy now)) ∧
    (∀ b ∈ (loadAccountsFromStorage [] legacy now).1, b.tokens = none) ∧
    (∀ a ∈ legacy, truthy a.username ∨ localPart (a.email.getD "") ≠ "" →
      (migrateLegacy now a).username ≠ "") := by
  have hfilter : legacy.filter (fun a => a.email.isSome) = legacy :=
    List.filter_eq_self.mpr (fun a ha => by simpa using hvalid a ha)
  have hlen₂ : (legacy.map (migrateLegacy now)).length ≤ 5 := by
    simpa using hlen
  have hload : loadAccountsFromStorage [] legacy now =
      (legacy.map (migrateLegacy now), some (legacy.map (migrateLegacy now))) := by
    unfold loadAccountsFromStorage
    rw [if_neg (by simp), if_neg (by simpa using hne)]
    simp only [hfilter, List.take_of_length_le hlen₂]
  refine ⟨by rw [hload], by rw [hload]; simp, by rw [hload], ?_, ?_⟩
  · intro b hb
    rw [hload] at hb
    obtain ⟨a, -, rfl⟩ := List.mem_map.mp hb
    rfl
  · intro a _ hcase
    unfold migrateLegacy
    dsimp only
    by_cases htru : truthy a.username
    · rw [if_pos htru]
      cases hu : a.username with
      | none => rw [hu] at htru; simp [truthy] at htru
      | some u =>
          rw [hu] at htru
          have hu0 : u ≠ "" := by simpa [truthy] using htru
          simp [hu, hu0]
    · rw [if_neg htru]
      cases hcase with
      | inl h => exact absurd h htru
      | inr h => exact h

/-- Witness for `loadAccountsFromStorage_migrates_legacy`. -/
theorem loadAccountsFromStorage_migrates_legacy_witness :
    ([⟨some "a@x.com", none, none, none, none⟩] : List LegacyAccount) ≠ [] ∧
    (loadAccountsFromStorage [] [⟨some "a@x.com", none, none, none, none⟩]
      "t0").2 =
      some ([⟨some "a@x.com", none, none, none, none⟩].map (migrateLegacy "t0")) :=
  ⟨by decide,
   (loadAccountsFromStorage_migrates_legacy
      [⟨some "a@x.com", none, none, none, none⟩] "t0" (by decide) (by decide)
      (by decide)).2.2.1⟩

/-- C8 counterexample: a valid legacy entry (its email is a string) whose
email has an empty local part and whose username is absent migrates to an
entry with an empty username; and an empty legacy store is not written back
at all. -/
theorem loadAccountsFromStorage_counterexample :
    (∃ b ∈ (loadAccountsFromStorage []
        [⟨some "@example.com", none, none, none, none⟩] "t0").1,
      b.username = "") ∧
    (loadAccountsFromStorage [] ([] : List LegacyAccount) "t0").2 = none := by
  constructor
  · refine ⟨migrateLegacy "t0" ⟨some "@example.com", none, none, none, none⟩,
      by decide, by decide⟩
  · decide

/-! ### Switch protocol theorems (C3, C4) -/

/-- The session `handleSwitchAccount` ends up with, given stored tokens `t`:
the `setSession` result when an access token is stored and the call succeeds,
otherwise the `refreshSession` result. -/
def resolvedSession (env : SwitchEnv) (t : StoredTokens) : Option Session :=
  if t.accessToken ≠ "" then
    match env.setSessionResult with
    | some s => some s
    | none => env.refreshResult
  else env.refreshResult

theorem saveCurrentSession_only_upserts (env : SwitchEnv) (now : String) :
    ∀ x ∈ saveCurrentSession env now, ∃ a, x = SwAct.upsert a := by
  intro x hx
  unfold saveCurrentSession at hx
  cases henv : env.currentSession with
  | none => rw [henv] at hx; simp at hx
  | some s =>
      rw [henv] at hx
      dsimp only at hx
      by_cases hs : s.userId ≠ "" ∧ s.email ≠ ""
      · rw [if_pos hs] at hx
        simp only [List.mem_singleton] at hx
        exact ⟨_, hx⟩
      · rw [if_neg hs] at hx
        simp at hx

/-- Membership in the dynamic prefix that `saveCurrentSession` contributes to
a switch trace: any action that is not an upsert and is not in the rest of
the trace is not in the trace. -/
theorem not_mem_save_append {x : SwAct} (env : SwitchEnv) (now : String)
    (rest : List SwAct) (hx : ∀ a : StoredAccount, x ≠ SwAct.upsert a)
    (hrest : x ∉ rest) : x ∉ saveCurrentSession env now ++ rest := by
  intro h
  rcases List.mem_append.mp h with h | h
  · obtain ⟨a, ha⟩ := saveCurrentSession_only_upserts env now _ h
    exact hx a ha
  · exact hrest h

/-- C3 (amended): for every stored account with a non-empty email that is not
the current identity: if it has no credential pair, `handleSwitchAccount`
stores the pending-switch email hint and navigates to interactive sign-in
(never reaching ACTIVE); if it has a refresh credential that the auth
collaborator accepts (a session with user id and email results — the model of
a valid, unexpired credential), it reaches ACTIVE (full reload) without
storing a hint or navigating to interactive sign-in. -/
theorem handleSwitchAccount_paths (currentEmail : String)
    (account : StoredAccount) (env : SwitchEnv) (now : String)
    (hemail : account.email ≠ "") (hne : account.email ≠ currentEmail) :
    (account.tokens = none →
      SwAct.storeHint account.email ∈ handleSwitchAccount currentEmail account env now ∧
      SwAct.navAuth account.email ∈ handleSwitchAccount currentEmail account env now ∧
      SwAct.navHome ∉ handleSwitchAccount currentEmail account env now) ∧
    (∀ t s, account.tokens = some t → t.refreshToken ≠ "" →
      resolvedSession env t = some s → s.userId ≠ "" → s.email ≠ "" →
      SwAct.navHome ∈ handleSwitchAccount currentEmail account env now ∧
      (∀ e, SwAct.navAuth e ∉ handleSwitchAccount currentEmail account env now) ∧
      (∀ e, SwAct.storeHint e ∉ handleSwitchAccount currentEmail account env now) ∧
      (SwAct.setSessionCall ∈ handleSwitchAccount currentEmail account env now ∨
       SwAct.refreshSessionCall ∈ handleSwitchAccount currentEmail account env now)) := by
  constructor
  · intro htok
    simp [handleSwitchAccount, hemail, hne, htok]
  · intro t s htok hrt hres hsid hsm
    unfold resolvedSession at hres
    by_cases hat : t.accessToken = ""
    · rw [if_neg (by simp [hat])] at hres
      have htr : handleSwitchAccount currentEmail account env now =
          saveCurrentSession env now ++
            [SwAct.toastShown .switching, SwAct.refreshSessionCall,
             SwAct.upsert ⟨s.userId, s.email, fetchUsername env s.userId s.email,
               now, some ⟨s.accessToken, s.refreshToken, s.expiresAt⟩⟩,
             SwAct.toastShown .switched, SwAct.navHome] := by
        simp [handleSwitchAccount, hemail, hne, htok, hrt, hat, hres, hsid, hsm]
      rw [htr]
      refine ⟨by simp, ?_, ?_, by simp⟩
      · exact fun e => not_mem_save_append env now _ (fun a => by simp) (by simp)
      · exact fun e => not_mem_save_append env now _ (fun a => by simp) (by simp)
    · rw [if_pos hat] at hres
      cases hset : env.setSessionResult with
      | some s₂ =>
          rw [hset] at hres
          simp only [Option.some.injEq] at hres
          have hset₂ : env.setSessionResult = some s := by rw [hset, hres]
          have htr : handleSwitchAccount currentEmail account env now =
              saveCurrentSession env now ++
                [SwAct.toastShown .switching, SwAct.setSessionCall,
                 SwAct.upsert ⟨s.userId, s.email,
                   fetchUsername env s.userId s.email, now,
                   some ⟨s.accessToken, s.refreshToken, s.expiresAt⟩⟩,
                 SwAct.toastShown .switched, SwAct.navHome] := by
            simp [handleSwitchAccount, hemail, hne, htok, hrt, hat, hset₂, hsid, hsm]
          rw [htr]
          refine ⟨by simp, ?_, ?_, by simp⟩
          · exact fun e => not_mem_save_append env now _ (fun a => by simp) (by simp)
          · exact fun e => not_mem_save_append env now _ (fun a => by simp) (by simp)
      | none =>
          rw [hset] at hres
          dsimp only at hres
          have htr : handleSwitchAccount currentEmail account env now =
              saveCurrentSession env now ++
                [SwAct.toastShown .switching, SwAct.setSessionCall,
                 SwAct.refreshSessionCall,
                 SwAct.upsert ⟨s.userId, s.email,
                   fetchUsername env s.userId s.email, now,
                   some ⟨s.accessToken, s.refreshToken, s.expiresAt⟩⟩,
                 SwAct.toastShown .switched, SwAct.navHome] := by
            simp [handleSwitchAccount, hemail, hne, htok, hrt, hat, hset, hres,
              hsid, hsm]
          rw [htr]
          refine ⟨by simp, ?_, ?_, by simp⟩
          · exact fun e => not_mem_save_append env now _ (fun a => by simp) (by simp)
          · exact fun e => not_mem_save_append env now _ (fun a => by simp) (by simp)

/-- An auth environment in which every collaborator call fails. -/
def envAllFail : SwitchEnv := ⟨none, none, none, fun _ => none⟩

/-- C3 counterexample: a stored account with an empty email (producible by
the legacy migration) and no credential pair, distinct from the current
identity, makes `handleSwitchAccount` return without storing the
pending-switch hint or navigating anywhere. -/
theorem handleSwitchAccount_empty_email_counterexample :
    (⟨"", "", "", "", none⟩ : StoredAccount).tokens = none ∧
    (⟨"", "", "", "", none⟩ : StoredAccount).email ≠ "me@x.com" ∧
    handleSwitchAccount "me@x.com" ⟨"", "", "", "", none⟩ envAllFail "t0" = [] :=
  ⟨rfl, by decide, rfl⟩

/-- Witness for `handleSwitchAccount_paths`. -/
theorem handleSwitchAccount_paths_witness :
    ("b@x.com" : String) ≠ "" ∧ ("b@x.com" : String) ≠ "a@x.com" ∧
    SwAct.storeHint "b@x.com" ∈
      handleSwitchAccount "a@x.com" ⟨"u2", "b@x.com", "b", "t1", none⟩
        envAllFail "t0" :=
  ⟨by decide, by decide,
   (((handleSwitchAccount_paths "a@x.com" ⟨"u2", "b@x.com", "b", "t1", none⟩
      envAllFail "t0" (by decide) (by decide)).1) rfl).1⟩

/-- C4: during a switch of an account with a stored access+refresh pair, if
`setSession` fails the switch falls back to a `refreshSession` exchange (the
two calls appear in order in the trace); if the fallback produces a usable
session the switch reaches ACTIVE with no hint and no interactive sign-in,
and only if the fallback also fails does the switch store the pending hint,
show an error toast, and navigate to interactive sign-in. -/
theorem handleSwitchAccount_refresh_fallback (currentEmail : String)
    (account : StoredAccount) (env : SwitchEnv) (now : String)
    (t : StoredTokens) (hemail : account.email ≠ "")
    (hne : account.email ≠ currentEmail) (htok : account.tokens = some t)
    (hrt : t.refreshToken ≠ "") (hat : t.accessToken ≠ "")
    (hset : env.setSessionResult = none) :
    (∃ pre post, handleSwitchAccount currentEmail account env now =
        pre ++ [SwAct.setSessionCall, SwAct.refreshSessionCall] ++ post) ∧
    (∀ s, env.refreshResult = some s → s.userId ≠ "" → s.email ≠ "" →
      SwAct.navHome ∈ handleSwitchAccount currentEmail account env now ∧
      (∀ e, SwAct.navAuth e ∉ handleSwitchAccount currentEmail account env now) ∧
      (∀ e, SwAct.storeHint e ∉ handleSwitchAccount currentEmail account env now)) ∧
    ((env.refreshResult = none ∨
        ∃ s, env.refreshResult = some s ∧ (s.userId = "" ∨ s.email = "")) →
      SwAct.storeHint account.email ∈
        handleSwitchAccount currentEmail account env now ∧
      SwAct.toastShown .switchError ∈
        handleSwitchAccount currentEmail account env now ∧
      SwAct.navAuth account.email ∈
        handleSwitchAccount currentEmail account env now ∧
      SwAct.navHome ∉ handleSwitchAccount currentEmail account env now) := by
  cases href : env.refreshResult with
  | none =>
      have htr : handleSwitchAccount currentEmail account env now =
          saveCurrentSession env now ++
            [SwAct.toastShown .switching, SwAct.setSessionCall,
             SwAct.refreshSessionCall, SwAct.storeHint account.email,
             SwAct.toastShown .switchError, SwAct.navAuth account.email] := by
        simp [handleSwitchAccount, hemail, hne, htok, hrt, hat, hset, href]
      refine ⟨⟨saveCurrentSession env now ++ [SwAct.toastShown .switching],
          [SwAct.storeHint account.email, SwAct.toastShown .switchError,
           SwAct.navAuth account.email], by rw [htr]; simp⟩, ?_, ?_⟩
      · intro s hs
        exact absurd hs (by simp)
      · intro _
        rw [htr]
        refine ⟨by simp, by simp, by simp, ?_⟩
        exact not_mem_save_append env now _ (fun a => by simp) (by simp)
  | some s₀ =>
      by_cases hbad : s₀.userId = "" ∨ s₀.email = ""
      · have htr : handleSwitchAccount currentEmail account env now =
            saveCurrentSession env now ++
              [SwAct.toastShown .switching, SwAct.setSessionCall,
               SwAct.refreshSessionCall, SwAct.storeHint account.email,
               SwAct.toastShown .switchError, SwAct.navAuth account.email] := by
          simp [handleSwitchAccount, hemail, hne, htok, hrt, hat, hset, href,
            hbad]
        refine ⟨⟨saveCurrentSession env now ++ [SwAct.toastShown .switching],
            [SwAct.storeHint account.email, SwAct.toastShown .switchError,
             SwAct.navAuth account.email], by rw [htr]; simp⟩, ?_, ?_⟩
        · intro s hs hid hm
          simp only [Option.some.injEq] at hs
          subst hs
          rcases hbad with h | h
          · exact absurd h hid
          · exact absurd h hm
        · intro _
          rw [htr]
          refine ⟨by simp, by simp, by simp, ?_⟩
          exact not_mem_save_append env now _ (fun a => by simp) (by simp)
      · have htr : handleSwitchAccount currentEmail account env now =
            saveCurrentSession env now ++
              [SwAct.toastShown .switching, SwAct.setSessionCall,
               SwAct.refreshSessionCall,
               SwAct.upsert ⟨s₀.userId, s₀.email,
                 fetchUsername env s₀.userId s₀.email, now,
                 some ⟨s₀.accessToken, s₀.refreshToken, s₀.expiresAt⟩⟩,
               SwAct.toastShown .switched, SwAct.navHome] := by
          simp [handleSwitchAccount, hemail, hne, htok, hrt, hat, hset, href,
            hbad]
        refine ⟨⟨saveCurrentSession env now ++ [SwAct.toastShown .switching],
            [SwAct.upsert ⟨s₀.userId, s₀.email,
               fetchUsername env s₀.userId s₀.email, now,
               some ⟨s₀.accessToken, s₀.refreshToken, s₀.expiresAt⟩⟩,
             SwAct.toastShown .switched, SwAct.navHome],
            by rw [htr]; simp⟩, ?_, ?_⟩
        · intro s hs hid hm
          rw [htr]
          refine ⟨by simp, ?_, ?_⟩
          · exact fun e =>
              not_mem_save_append env now _ (fun a => by simp) (by simp)
          · exact fun e =>
              not_mem_save_append env now _ (fun a => by simp) (by simp)
        · intro hcontra
          rcases hcontra with h | ⟨s, hs, hor⟩
          · exact absurd h (by simp)
          · simp only [Option.some.injEq] at hs
            subst hs
            exact absurd hor hbad

/-- Witness for `handleSwitchAccount_refresh_fallback`. -/
theorem handleSwitchAccount_refresh_fallback_witness :
    ("b@x.com" : String) ≠ "" ∧ ("b@x.com" : String) ≠ "a@x.com" ∧
    SwAct.navHome ∈ handleSwitchAccount "a@x.com"
      ⟨"u2", "b@x.com", "b", "t1", some ⟨"at", "rt", none⟩⟩
      ⟨none, some ⟨"u2", "b@x.com", "at2", "rt2", none⟩, none, fun _ => none⟩
      "t0" :=
  ⟨by decide, by decide,
   (((handleSwitchAccount_refresh_fallback "a@x.com"
      ⟨"u2", "b@x.com", "b", "t1", some ⟨"at", "rt", none⟩⟩
      ⟨none, some ⟨"u2", "b@x.com", "at2", "rt2", none⟩, none, fun _ => none⟩
      "t0" ⟨"at", "rt", none⟩ (by decide) (by decide) rfl (by decide)
      (by decide) rfl).2.1 ⟨"u2", "b@x.com", "at2", "rt2", none⟩ rfl
      (by decide) (by decide)).1)⟩

/-! ### `streamChat` theorems (C5, C6, C7) -/

/-- A chat environment with no authenticated session. -/
def envNoAuth : ChatEnv := ⟨some "c1", none, 200, true, [], fun _ => none, none⟩

/-- C5 counterexample: called with no session, `streamChat` still sets the
loading flag first and still invokes the persistence collaborator for the
user message (both network work and the loading state precede the
authentication check). -/
theorem streamChat_no_auth_counterexample :
    (streamChat [] "hi".data none envNoAuth).trace =
      [ChatAct.setLoading true, ChatAct.saveMessageCall .user "hi".data none,
       ChatAct.toastShown .notAuth, ChatAct.setLoading false] ∧
    ChatAct.setLoading true ∈ (streamChat [] "hi".data none envNoAuth).trace ∧
    (ChatAct.saveMessageCall .user "hi".data none).isNetworkCall = true := by
  refine ⟨by decide, by decide, rfl⟩

/-- C5 (amended): with no access token, `streamChat` never contacts the
completion endpoint, shows the unauthenticated notice, persists no assistant
message, leaves the message list at the optimistic user append, and ends with
the loading flag cleared — but it does enter the loading state transiently
and the user-message persistence call precedes the session check. -/
theorem streamChat_unauthenticated (messages : List Msg)
    (userMessage : List Char) (conv : Option String) (env : ChatEnv)
    (h : truthy env.accessToken = false) :
    ChatAct.fetchChat ∉ (streamChat messages userMessage conv env).trace ∧
    ChatAct.toastShown .notAuth ∈ (streamChat messages userMessage conv env).trace ∧
    (streamChat messages userMessage conv env).loading = false ∧
    (∀ c o, ChatAct.saveMessageCall .assistant c o ∉
      (streamChat messages userMessage conv env).trace) ∧
    (streamChat messages userMessage conv env).messages =
      messages ++ [⟨Role.user, userMessage⟩] := by
  have htr : streamChat messages userMessage conv env =
      { trace := [.setLoading true, .saveMessageCall .user userMessage none,
                  .toastShown .notAuth, .setLoading false]
        messages := messages ++ [⟨Role.user, userMessage⟩]
        loading := false } := by
    simp [streamChat, h]
  rw [htr]
  exact ⟨by simp, by simp, rfl, fun c o => by simp, rfl⟩

/-- Witness for `streamChat_unauthenticated`. -/
theorem streamChat_unauthenticated_witness :
    truthy envNoAuth.accessToken = false ∧
    ChatAct.toastShown .notAuth ∈ (streamChat [] "hi".data none envNoAuth).trace :=
  ⟨rfl, (streamChat_unauthenticated [] "hi".data none envNoAuth rfl).2.1⟩

/-- C7: on an HTTP 429 from the completion endpoint, `streamChat` appends no
assistant message (in memory or persisted), shows the rate-limit notice,
contacts the endpoint exactly once (no retry), and clears the loading flag. -/
theorem streamChat_rate_limited (messages : List Msg) (userMessage : List Char)
    (conv : Option String) (env : ChatEnv)
    (hauth : truthy env.accessToken = true) (h429 : env.status = 429) :
    (∀ c o, ChatAct.saveMessageCall .assistant c o ∉
      (streamChat messages userMessage conv env).trace) ∧
    ChatAct.toastShown .rateLimit ∈ (streamChat messages userMessage conv env).trace ∧
    (∃ pre post, (streamChat messages userMessage conv env).trace =
        pre ++ [ChatAct.fetchChat] ++ post ∧
        ChatAct.fetchChat ∉ pre ∧ ChatAct.fetchChat ∉ post) ∧
    (streamChat messages userMessage conv env).messages =
      messages ++ [⟨Role.user, userMessage⟩] ∧
    (streamChat messages userMessage conv env).loading = false := by
  have htr : streamChat messages userMessage conv env =
      { trace := [.setLoading true, .saveMessageCall .user userMessage none,
                  .fetchChat, .toastShown .rateLimit, .setLoading false]
        messages := messages ++ [⟨Role.user, userMessage⟩]
        loading := false } := by
    simp [streamChat, hauth, h429, responseOk]
  rw [htr]
  refine ⟨fun c o => by simp, by simp, ?_, rfl, rfl⟩
  exact ⟨[.setLoading true, .saveMessageCall .user userMessage none],
    [.toastShown .rateLimit, .setLoading false], by simp, by simp, by simp⟩

/-- A chat environment answering 429. -/
def envRateLimited : ChatEnv :=
  ⟨some "c1", some "tok", 429, true, [], fun _ => none, none⟩

/-- Witness for `streamChat_rate_limited`. -/
theorem streamChat_rate_limited_witness :
    truthy envRateLimited.accessToken = true ∧ envRateLimited.status = 429 ∧
    ChatAct.toastShown .rateLimit ∈
      (streamChat [] "hi".data none envRateLimited).trace :=
  ⟨rfl, rfl,
   (streamChat_rate_limited [] "hi".data none envRateLimited rfl rfl).2.1⟩

/-- Whether an action is the persistence call for an assistant message. -/
def isAssistantSave : ChatAct → Bool
  | .saveMessageCall .assistant _ _ => true
  | _ => false

/-- A chat environment whose stream completes with no content deltas. -/
def envEmptyStream : ChatEnv :=
  ⟨some "c1", some "tok", 200, true, [("data: [DONE]\n").data],
   fun _ => none, none⟩

/-- C6 counterexample: a stream that completes normally (HTTP 200, body read
to the end, `[DONE]` received) but delivers no content deltas leads to zero
persistence calls for the assistant content — not exactly one — even though
the user-message save established conversation id `"c1"`. -/
theorem streamChat_empty_content_counterexample :
    (streamChat [] "hi".data none envEmptyStream).trace =
      [ChatAct.setLoading true, ChatAct.saveMessageCall .user "hi".data none,
       ChatAct.fetchChat, ChatAct.setLoading false] ∧
    (streamChat [] "hi".data none envEmptyStream).trace.any isAssistantSave
      = false := by
  refine ⟨by decide, by decide⟩

/-- C6 (amended): for every completed stream that produced non-empty
assistant content and whose user-message save established a conversation id
`c` at send time, `streamChat` persists the assistant content exactly once,
against `c` — for every value of the current-conversation closure variable
and of the conversation ref at completion time, i.e. even if the user starts
a new conversation or selects a different one while the stream is in
flight. -/
theorem streamChat_persists_to_sendtime_conversation (messages : List Msg)
    (userMessage : List Char) (conv : Option String) (env : ChatEnv)
    (c : String) (hauth : truthy env.accessToken = true)
    (hok : responseOk env.status) (hbody : env.hasBody = true)
    (hconv : env.saveUserResult = some c) (hc : c ≠ "")
    (hcontent : (decodeDeltas env.parse env.chunks).flatten ≠ []) :
    ∃ pre post, (streamChat messages userMessage conv env).trace =
      pre ++ [ChatAct.saveMessageCall .assistant
        ((decodeDeltas env.parse env.chunks).flatten) (some c)] ++ post ∧
      (∀ c₂ o, ChatAct.saveMessageCall .assistant c₂ o ∉ pre) ∧
      (∀ c₂ o, ChatAct.saveMessageCall .assistant c₂ o ∉ post) := by
  have htr : streamChat messages userMessage conv env =
      { trace := [.setLoading true, .saveMessageCall .user userMessage none,
                  .fetchChat,
                  .saveMessageCall .assistant
                    ((decodeDeltas env.parse env.chunks).flatten) (some c),
                  .setLoading false]
        messages := applyDeltas (messages ++ [⟨Role.user, userMessage⟩])
          (decodeDeltas env.parse env.chunks)
        loading := false } := by
    have htc : truthy (some c) = true := by simp [truthy, hc]
    simp [streamChat, hauth, hok, hbody, hconv, htc, hcontent, Option.orElse]
  rw [htr]
  exact ⟨[.setLoading true, .saveMessageCall .user userMessage none,
          .fetchChat], [.setLoading false], by simp,
    fun c₂ o => by simp, fun c₂ o => by simp⟩

/-- The example delta extractor used by concrete stream scenarios: models
`JSON.parse` + `choices[0].delta.content` on two known payloads, anything
else being malformed or content-free. -/
def parseEx : List Char → Option (List Char) :=
  fun l =>
    if l = "j1".data then some "Hello ".data
    else if l = "j2".data then some "world".data
    else none

/-- Witness for `streamChat_persists_to_sendtime_conversation`: the stream
delivers `"Hello "` and the user switched conversation mid-stream (the ref
points elsewhere at completion). -/
theorem streamChat_persists_to_sendtime_conversation_witness :
    (decodeDeltas parseEx [("data: j1\ndata: [DONE]\n").data]).flatten ≠ [] ∧
    ∃ pre post,
      (streamChat [] "hi".data (some "other")
        ⟨some "c1", some "tok", 200, true,
         [("data: j1\ndata: [DONE]\n").data], parseEx, some "other2"⟩).trace =
      pre ++ [ChatAct.saveMessageCall .assistant
        ((decodeDeltas parseEx [("data: j1\ndata: [DONE]\n").data]).flatten)
        (some "c1")] ++ post :=
  ⟨by decide,
   match streamChat_persists_to_sendtime_conversation [] "hi".data
      (some "other")
      ⟨some "c1", some "tok", 200, true,
       [("data: j1\ndata: [DONE]\n").data], parseEx, some "other2"⟩
      "c1" rfl (by decide) rfl rfl (by decide) (by decide) with
   | ⟨pre, post, h, _, _⟩ => ⟨pre, post, h⟩⟩

/-! ### Chunking-independence of the stream decoder (C1) -/

theorem joinLines_nil (p : List Char) : joinLines [] p = p := by
  simp [joinLines]

theorem splitLines_no_newline {buf : List Char} (h : '\n' ∉ buf) :
    splitLines buf = ([], buf) := by
  induction buf with
  | nil => rfl
  | cons c rest ih =>
      have hc : ¬ c = '\n' := fun hc => h (hc ▸ List.mem_cons_self c rest)
      have hr : '\n' ∉ rest := fun hm => h (List.mem_cons_of_mem c hm)
      simp [splitLines, ih hr, hc]

theorem splitLines_line_append {l : List Char} (rest : List Char)
    (h : '\n' ∉ l) :
    splitLines (l ++ '\n' :: rest) =
      (l :: (splitLines rest).1, (splitLines rest).2) := by
  induction l with
  | nil => simp [splitLines]
  | cons c l' ih =>
      have hc : ¬ c = '\n' := fun hc => h (hc ▸ List.mem_cons_self c l')
      have hl : '\n' ∉ l' := fun hm => h (List.mem_cons_of_mem c hm)
      simp only [List.cons_append, splitLines, List.append_eq]
      rw [ih hl]
      simp [hc]

theorem processBuf_no_newline {buf : List Char}
    (parse : List Char → Option (List Char)) (ds : List (List Char))
    (h : '\n' ∉ buf) : processBuf parse buf ds = (buf, ds) := by
  simp [processBuf, splitLines_no_newline h, runLines, joinLines]

theorem processBuf_cons_line {l : List Char}
    (parse : List Char → Option (List Char)) (buf : List Char)
    (ds : List (List Char)) (h : '\n' ∉ l) :
    processBuf parse (l ++ '\n' :: buf) ds =
      match lineStep parse l with
      | .skip => processBuf parse buf ds
      | .done => (joinLines (splitLines buf).1 (splitLines buf).2, ds)
      | .delta d => processBuf parse buf (ds ++ [d]) := by
  simp only [processBuf, splitLines_line_append buf h, runLines]
  cases lineStep parse l <;> rfl

/-- The lines of well-formed scenarios never hold a newline. -/
theorem renderLine_no_newline {l : SSELine} (h : wfLine l) :
    '\n' ∉ renderLine l := by
  cases l with
  | comment s =>
      simp only [renderLine]
      intro hm
      rcases List.mem_cons.mp hm with hm | hm
      · exact absurd hm (by decide)
      · exact h hm
  | blank => simp [renderLine]
  | event j =>
      simp only [renderLine]
      intro hm
      rcases List.mem_append.mp hm with hm | hm
      · exact absurd hm (by decide)
      · exact h.1 hm
  | done => exact absurd h (by simp [wfLine])

/-- Splitting the text `buf ++ R` at the first line boundary `rl ++ '\n'`:
either `buf` is still inside the first line, or `buf` covers it. -/
theorem append_line_cases {buf R rl rest : List Char}
    (h : buf ++ R = rl ++ '\n' :: rest) (hnl : '\n' ∉ rl) :
    ('\n' ∉ buf ∧ ∃ rl₂, rl = buf ++ rl₂ ∧ R = rl₂ ++ '\n' :: rest) ∨
    (∃ buf₂, buf = rl ++ '\n' :: buf₂ ∧ buf₂ ++ R = rest) := by
  induction rl generalizing buf with
  | nil =>
      cases buf with
      | nil =>
          left
          exact ⟨by simp, [], by simp, by simpa using h⟩
      | cons b bs =>
          right
          simp only [List.cons_append, List.nil_append] at h
          obtain ⟨hb, hrest⟩ := List.cons.injEq .. ▸ h
          exact ⟨bs, by simp [hb], hrest⟩
  | cons c rl' ih =>
      have hc : c ≠ '\n' := fun hh => hnl (hh ▸ List.mem_cons_self c rl')
      have hnl' : '\n' ∉ rl' := fun hm => hnl (List.mem_cons_of_mem c hm)
      cases buf with
      | nil =>
          left
          exact ⟨by simp, c :: rl', by simp, by simpa using h⟩
      | cons b bs =>
          simp only [List.cons_append] at h
          obtain ⟨hb, htail⟩ := List.cons.injEq .. ▸ h
          subst hb
          rcases ih htail hnl' with ⟨hnb, rl₂, hrl, hR⟩ | ⟨buf₂, hbuf, hR⟩
          · left
            refine ⟨?_, rl₂, by simp [hrl], hR⟩
            intro hm
            rcases List.mem_cons.mp hm with hm | hm
            · exact hc hm.symm
            · exact hnb hm
          · right
            exact ⟨buf₂, by simp [hbuf], hR⟩

theorem trimChars_ne_nil_of_head {l : List Char} {c : Char}
    (h : l.head? = some c) (hc : c.isWhitespace = false) :
    trimChars l ≠ [] := by
  cases l with
  | nil => simp at h
  | cons a t =>
      unfold trimChars
      have ha : ¬ a.isWhitespace = true := by
        have hac : a = c := by simpa using h
        rw [hac, hc]
        simp
      rw [List.dropWhile_cons, if_neg ha]
      intro hnil
      have h₂ : ((a :: t).reverse.dropWhile Char.isWhitespace) = [] := by
        simpa using congrArg List.reverse hnil
      have h₃ := List.dropWhile_eq_nil_iff.mp h₂ a (by simp)
      exact ha h₃

theorem isPrefixOf_append_self (p l : List Char) :
    p.isPrefixOf (p ++ l) = true := by
  induction p with
  | nil => simp [List.isPrefixOf]
  | cons a p' ih => simp [List.isPrefixOf, ih]

theorem dropTrailingCR_marker_append (j : List Char) :
    dropTrailingCR (dataMarker ++ j) = dataMarker ++ dropTrailingCR j := by
  cases j with
  | nil => decide
  | cons c j' =>
      unfold dropTrailingCR
      rw [List.getLast?_append_cons, List.dropLast_append_cons]
      by_cases hl : (c :: j').getLast? = some '\r'
      · rw [if_pos hl, if_pos hl]
      · rw [if_neg hl, if_neg hl]

theorem lineStep_comment (parse : List Char → Option (List Char))
    (s : List Char) : lineStep parse (renderLine (.comment s)) = .skip := by
  have hhead : (dropTrailingCR (':' :: s)).head? = some ':' := by
    unfold dropTrailingCR
    cases s with
    | nil => decide
    | cons c s' =>
        by_cases hl : (':' :: c :: s').getLast? = some '\r'
        · rw [if_pos hl]; rfl
        · rw [if_neg hl]; rfl
  simp [lineStep, renderLine, hhead]

theorem lineStep_blank (parse : List Char → Option (List Char)) :
    lineStep parse (renderLine .blank) = .skip := rfl

theorem lineStep_done (parse : List Char → Option (List Char)) :
    lineStep parse (renderLine .done) = .done := rfl

theorem lineStep_event (parse : List Char → Option (List Char))
    {j : List Char} (hj : jsonOf j ≠ doneMarker) :
    lineStep parse (renderLine (.event j)) =
      (match parse (jsonOf j) with
       | some d => if d = [] then LineStep.skip else LineStep.delta d
       | none => LineStep.skip) := by
  have hhead : (dataMarker ++ dropTrailingCR j).head? = some 'd' := rfl
  have hdrop : (dataMarker ++ dropTrailingCR j).drop 6 = dropTrailingCR j := by
    rw [show (6 : Nat) = dataMarker.length from rfl]
    exact List.drop_left _ _
  unfold lineStep renderLine
  rw [dropTrailingCR_marker_append]
  rw [if_neg ?hc1]
  case hc1 =>
    rintro (h | h)
    · rw [hhead] at h
      simp at h
    · exact trimChars_ne_nil_of_head hhead (by decide) h
  rw [if_neg (by simp [isPrefixOf_append_self])]
  simp only [hdrop]
  rw [if_neg (by simpa [jsonOf] using hj)]
  rfl

theorem renderAll_nil : renderAll [] = [] := rfl

theorem renderAll_cons (l : SSELine) (ls : List SSELine) :
    renderAll (l :: ls) = renderLine l ++ '\n' :: renderAll ls := by
  simp [renderAll, renderLn]

theorem newline_mem_renderAll_done (ls : List SSELine) :
    '\n' ∈ renderAll (ls ++ [.done]) := by
  induction ls with
  | nil => decide
  | cons l ls ih =>
      rw [List.cons_append, renderAll_cons]
      exact List.mem_append_right _ (List.mem_cons_self _ _)

/-- On a well-formed (non-sentinel) line the loop body either skips or
accumulates exactly the delta `deltaOfLine` assigns to the line. -/
theorem lineStep_wf (parse : List Char → Option (List Char)) {l : SSELine}
    (h : wfLine l) :
    (lineStep parse (renderLine l) = .skip ∧ deltaOfLine parse l = none) ∨
    (∃ d, lineStep parse (renderLine l) = .delta d ∧
      deltaOfLine parse l = some d) := by
  cases l with
  | comment s => exact Or.inl ⟨lineStep_comment parse s, rfl⟩
  | blank => exact Or.inl ⟨lineStep_blank parse, rfl⟩
  | done => exact absurd h (by simp [wfLine])
  | event j =>
      rw [lineStep_event parse h.2]
      cases hp : parse (jsonOf j) with
      | none => exact Or.inl ⟨by simp [hp], by simp [deltaOfLine, hp]⟩
      | some d =>
          by_cases hd : d = []
          · exact Or.inl ⟨by simp [hp, hd], by simp [deltaOfLine, hp, hd]⟩
          · exact Or.inr ⟨d, by simp [hp, hd], by simp [deltaOfLine, hp, hd]⟩

/-- Running the loop on a buffer that carries a partially delivered
well-formed stream: the loop consumes exactly the complete lines, emits their
deltas in order, and leaves the partial line buffered; when the buffer holds
the whole stream the sentinel stops the loop with an empty remainder. -/
theorem processBuf_spec (parse : List Char → Option (List Char)) :
    ∀ (ls : List SSELine) (buf R : List Char) (ds : List (List Char)),
    (∀ l ∈ ls, wfLine l) →
    buf ++ R = renderAll (ls ++ [.done]) →
    (∃ ls₁ ls₂ q, ls = ls₁ ++ ls₂ ∧ '\n' ∉ q ∧
      processBuf parse buf ds = (q, ds ++ expectedDeltas parse ls₁) ∧
      q ++ R = renderAll (ls₂ ++ [.done])) ∨
    (R = [] ∧ processBuf parse buf ds = ([], ds ++ expectedDeltas parse ls)) := by
  intro ls
  induction ls with
  | nil =>
      intro buf R ds hwf h
      have h' : buf ++ R = renderLine SSELine.done ++ '\n' :: [] := by
        rw [h]; decide
      have hnl : '\n' ∉ renderLine SSELine.done := by decide
      rcases append_line_cases h' hnl with ⟨hnb, rl₂, hrl, hR⟩ | ⟨buf₂, hbuf, hR⟩
      · left
        exact ⟨[], [], buf, by simp, hnb,
          by simp [processBuf_no_newline parse ds hnb, expectedDeltas], h⟩
      · right
        obtain ⟨hb2, hR0⟩ := List.append_eq_nil.mp hR
        subst hb2
        subst hbuf
        refine ⟨hR0, ?_⟩
        rw [processBuf_cons_line parse [] ds hnl, lineStep_done]
        simp [splitLines, joinLines, expectedDeltas]
  | cons l ls' ih =>
      intro buf R ds hwf h
      have hwl : wfLine l := hwf l (List.mem_cons_self _ _)
      have hwf' : ∀ x ∈ ls', wfLine x := fun x hx => hwf x (List.mem_cons_of_mem _ hx)
      have hnl : '\n' ∉ renderLine l := renderLine_no_newline hwl
      have h' : buf ++ R = renderLine l ++ '\n' :: renderAll (ls' ++ [.done]) := by
        rw [h, List.cons_append, renderAll_cons]
      rcases append_line_cases h' hnl with ⟨hnb, rl₂, hrl, hR⟩ | ⟨buf₂, hbuf, hR⟩
      · left
        exact ⟨[], l :: ls', buf, by simp, hnb,
          by simp [processBuf_no_newline parse ds hnb, expectedDeltas], h⟩
      · subst hbuf
        rw [processBuf_cons_line parse buf₂ ds hnl]
        rcases lineStep_wf parse hwl with ⟨hstep, hdelta⟩ | ⟨d, hstep, hdelta⟩
        · simp only [hstep]
          rcases ih buf₂ R ds hwf' hR with
            ⟨ls₁, ls₂, q, hsplit, hq, hpb, hrest⟩ | ⟨hRnil, hpb⟩
          · left
            refine ⟨l :: ls₁, ls₂, q, by rw [hsplit, List.cons_append], hq,
              ?_, hrest⟩
            rw [hpb]
            simp [expectedDeltas, List.filterMap_cons, hdelta]
          · right
            refine ⟨hRnil, ?_⟩
            rw [hpb]
            simp [expectedDeltas, List.filterMap_cons, hdelta]
        · simp only [hstep]
          rcases ih buf₂ R (ds ++ [d]) hwf' hR with
            ⟨ls₁, ls₂, q, hsplit, hq, hpb, hrest⟩ | ⟨hRnil, hpb⟩
          · left
            refine ⟨l :: ls₁, ls₂, q, by rw [hsplit, List.cons_append], hq,
              ?_, hrest⟩
            rw [hpb]
            simp [expectedDeltas, List.filterMap_cons, hdelta]
          · right
            refine ⟨hRnil, ?_⟩
            rw [hpb]
            simp [expectedDeltas, List.filterMap_cons, hdelta]

theorem foldl_feed_empty (parse : List Char → Option (List Char))
    (cs : List (List Char)) (ds : List (List Char))
    (h : ∀ c ∈ cs, c = []) :
    cs.foldl (feedChunk parse) ([], ds) = ([], ds) := by
  induction cs with
  | nil => rfl
  | cons c cs ih =>
      have hc : c = [] := h c (List.mem_cons_self _ _)
      subst hc
      rw [List.foldl_cons, show feedChunk parse ([], ds) [] = ([], ds) from rfl]
      exact ih (fun c hc => h c (List.mem_cons_of_mem _ hc))

/-- Feeding a chunked well-formed stream through the reader loop, starting
from any newline-free carry-over buffer: the accumulated deltas are exactly
the deltas of the stream's lines, whatever the chunk boundaries. -/
theorem decode_fold (parse : List Char → Option (List Char)) :
    ∀ (chunks : List (List Char)) (ls : List SSELine) (q : List Char)
      (ds : List (List Char)),
    (∀ l ∈ ls, wfLine l) → '\n' ∉ q →
    q ++ chunks.flatten = renderAll (ls ++ [.done]) →
    (chunks.foldl (feedChunk parse) (q, ds)).2 =
      ds ++ expectedDeltas parse ls := by
  intro chunks
  induction chunks with
  | nil =>
      intro ls q ds hwf hq h
      exfalso
      apply hq
      rw [show q = renderAll (ls ++ [.done]) by simpa using h]
      exact newline_mem_renderAll_done ls
  | cons c cs ih =>
      intro ls q ds hwf hq h
      rw [List.foldl_cons, show feedChunk parse (q, ds) c =
        processBuf parse (q ++ c) ds from rfl]
      have h' : (q ++ c) ++ cs.flatten = renderAll (ls ++ [.done]) := by
        rw [List.append_assoc]
        simpa [List.flatten_cons] using h
      rcases processBuf_spec parse ls (q ++ c) cs.flatten ds hwf h' with
        ⟨ls₁, ls₂, q', hsplit, hq', hpb, hrest⟩ | ⟨hRnil, hpb⟩
      · rw [hpb]
        have hwf₂ : ∀ x ∈ ls₂, wfLine x := fun x hx =>
          hwf x (by rw [hsplit]; exact List.mem_append_right _ hx)
        rw [ih ls₂ q' (ds ++ expectedDeltas parse ls₁) hwf₂ hq' hrest, hsplit]
        simp [expectedDeltas, List.filterMap_append]
      · rw [hpb]
        have hcs : ∀ x ∈ cs, x = [] := by
          intro x hx
          exact List.flatten_eq_nil_iff.mp hRnil x hx
        rw [foldl_feed_empty parse cs _ hcs]

/-- C1: however a well-formed event stream — interleaved comment lines, blank
lines, event lines (with any mix of valid and malformed payloads) terminated
by the `[DONE]` sentinel — is split into chunks, the decoding loop of
`streamChat` accumulates exactly the deltas of the valid event lines, in
stream order, and so the final assistant content is their concatenation;
malformed lines are passed over without stopping the stream. -/
theorem streamChat_chunked_stream_decode
    (parse : List Char → Option (List Char)) (ls : List SSELine)
    (chunks : List (List Char)) (hwf : ∀ l ∈ ls, wfLine l)
    (hchunks : chunks.flatten = renderAll (ls ++ [.done])) :
    decodeDeltas parse chunks = expectedDeltas parse ls ∧
    (decodeDeltas parse chunks).flatten = (expectedDeltas parse ls).flatten := by
  have h := decode_fold parse chunks ls [] [] hwf (by simp)
    (by simpa using hchunks)
  have h₂ : decodeDeltas parse chunks = expectedDeltas parse ls := by
    simpa [decodeDeltas] using h
  exact ⟨h₂, by rw [h₂]⟩

/-- Witness for `streamChat_chunked_stream_decode`: a stream holding a
comment, a blank line, two valid event lines and one malformed line between
them, delivered in four chunks whose boundaries fall inside lines; the
decoded content is the concatenation of the two valid deltas. -/
theorem streamChat_chunked_stream_decode_witness :
    (∀ l ∈ ([.comment " keep-alive".data, .blank, .event "j1".data,
        .event "bad".data, .event "j2".data] : List SSELine), wfLine l) ∧
    decodeDeltas parseEx
      [": keep-al".data, "ive\n\ndata: j".data,
       "1\ndata: bad\ndata: j2\ndat".data, "a: [DONE]\n".data] =
      ["Hello ".data, "world".data] :=
  ⟨by decide,
   ((streamChat_chunked_stream_decode parseEx
      [.comment " keep-alive".data, .blank, .event "j1".data,
       .event "bad".data, .event "j2".data]
      [": keep-al".data, "ive\n\ndata: j".data,
       "1\ndata: bad\ndata: j2\ndat".data, "a: [DONE]\n".data]
      (by decide) (by decide)).1).trans (by decide)⟩

end Aid
